import Mathlib

/-!
Verification of the `rsf` module (resurfacing of Markdown notes).

Embedding conventions:
* A line of text is a `List Char`; a stream of lines is a `List (List Char)`.
* A Python `datetime.date` is its proleptic Gregorian ordinal
  (`date.toordinal`, with 0001-01-01 = 1), modelled as an `Int`.
  This is order- and day-arithmetic-faithful: comparison of dates is
  comparison of ordinals and `date ± timedelta(days=k)` is `± k`.
* Regular expressions are modelled by executable matchers restricted to
  ASCII whitespace (space, tab, newline, carriage return, form feed,
  vertical tab) and ASCII digits, which is what the dateblock lines use.
* Exceptions are split into `RsfErr` (the `RsfException` hierarchy, caught
  by `MaybeResult.bind`) and `PyExc` (built-in Python exceptions such as
  `AttributeError` and `ValueError`, which `bind` does not catch and which
  therefore escape the pipeline).
-/

/-- ASCII whitespace, the characters matched by the regex class `\s`
on the dateblock lines (the model does not cover non-ASCII whitespace). -/
def wsChar (c : Char) : Bool :=
  c == ' ' || c == '\t' || c == '\n' || c == '\r' || c == '\x0b' || c == '\x0c'

/-- ASCII digit, the characters matched by the regex class `\d`
(the model does not cover non-ASCII digits): exactly the ten characters
with code points 48 through 57. -/
def digitChar (c : Char) : Bool :=
  c == '0' || c == '1' || c == '2' || c == '3' || c == '4' ||
  c == '5' || c == '6' || c == '7' || c == '8' || c == '9'

/-- Model of `_START_PATTERN.match(line)` being truthy, where
`_START_PATTERN = re.compile(r"rsf:\s*\n?", re.IGNORECASE)`.
Since `re.match` anchors only at the start of the string and the tail
`\s*\n?` of the pattern is nullable, the match succeeds exactly when the
line begins with the case-insensitive literal `rsf:`. -/
def startPatternMatch (line : List Char) : Bool :=
  match line with
  | c1 :: c2 :: c3 :: c4 :: _ =>
    (c1 == 'r' || c1 == 'R') && (c2 == 's' || c2 == 'S') &&
    (c3 == 'f' || c3 == 'F') && c4 == ':'
  | _ => false

/-- Source: `_isnot_start_pattern_match`. -/
def isnot_start_pattern_match (line : List Char) : Bool :=
  !(startPatternMatch line)

/-- Shape of the date token captured by the group `(?P<date>\d{4}-\d{2}-\d{2})`:
exactly ten characters, four digits, a hyphen, two digits, a hyphen, two digits. -/
def dateTokenShape (t : List Char) : Bool :=
  match t with
  | [y1, y2, y3, y4, s1, m1, m2, s2, d1, d2] =>
    digitChar y1 && digitChar y2 && digitChar y3 && digitChar y4 &&
    s1 == '-' && digitChar m1 && digitChar m2 &&
    s2 == '-' && digitChar d1 && digitChar d2
  | _ => false

/-- Match the date group at the head of the input: the first ten characters
must have the `\d{4}-\d{2}-\d{2}` shape; returns the captured token and the
remaining input. -/
def matchTok (l : List Char) : Option (List Char × List Char) :=
  let t := l.take 10
  if dateTokenShape t then some (t, l.drop 10) else none

/-- Consume the optional completion-flag group `(?P<completed>x|X)?`: at
most one leading flag character is taken, and the input is returned
unchanged when none is present. -/
def takeFlag (s1 : List Char) : Bool × List Char :=
  match s1 with
  | x :: r => if x == 'x' || x == 'X' then (true, r) else (false, x :: r)
  | [] => (false, [])

/-- Model of `_DATE_PATTERN.match(line)`, where
`_DATE_PATTERN = re.compile(r"^[-*]\s*(?P<completed>x|X)?\s*(?P<date>\d{4}-\d{2}-\d{2})\s*")`.
The match is anchored at position 0 (so no leading whitespace is allowed
before the bullet), and the pattern has no end anchor (so arbitrary text may
follow the date token). After the bullet the regex greedily skips
whitespace, consumes at most one completion flag (a flag character can
never start the date group, so the deterministic scan is equivalent to the
backtracking regex), skips whitespace again and must then match the date
group. On success it returns the two captures: whether the `completed`
group matched, and the date token. The trailing `\s*` of the pattern is
nullable and does not affect success or the captures. -/
def dateMatch (line : List Char) : Option (Bool × List Char) :=
  match line with
  | [] => none
  | c :: rest =>
    if c == '-' || c == '*' then
      let fs := takeFlag (rest.dropWhile wsChar)
      match matchTok (fs.2.dropWhile wsChar) with
      | some (tok, _) => some (fs.1, tok)
      | none => none
    else none

/-- Source: `_is_date_pattern_match`. -/
def is_date_pattern_match (line : List Char) : Bool :=
  (dateMatch line).isSome

/-- Source: `_strip_trailing_newline`, which is `string.strip("\n")`:
Python str.strip removes the given characters from BOTH ends of the string,
so this drops newline characters from the front and from the back. -/
def strip_trailing_newline (s : List Char) : List Char :=
  ((s.dropWhile (· == '\n')).reverse.dropWhile (· == '\n')).reverse

/-- Source: `_droptake`: `dropwhile drop_pred`, then `islice(_, 1, None)`
(skip one element), then `takewhile take_pred`. -/
def droptake {α : Type} (drop_pred take_pred : α → Bool) (l : List α) : List α :=
  ((l.dropWhile drop_pred).drop 1).takeWhile take_pred

/-- One schedule entry (source: dataclass `DueDate`); `date` is the ordinal
of the calendar date. -/
structure DueDate where
  date : Int
  completed : Bool
deriving DecidableEq, Repr

/-- The `RsfException` hierarchy: `DateblockNotFound`, `NoDueDateFound`
(carrying `date_range` and `dateblock`), `StringParsingError` (carrying the
offending text). -/
inductive RsfErr where
  | dateblockNotFound : RsfErr
  | noDueDateFound (date_range : Int × Int) (dateblock : List DueDate) : RsfErr
  | stringParsingError (string : List Char) : RsfErr
deriving DecidableEq, Repr

/-- Built-in Python exceptions that are NOT part of the `RsfException`
hierarchy and hence are not caught by `MaybeResult.bind`. -/
inductive PyExc where
  | attributeError : PyExc
  | valueError : PyExc
  | typeError : PyExc
deriving DecidableEq, Repr

/-- Outcome of calling a Python function: normal return, a raised
`RsfException`, or a raised built-in exception. -/
inductive PyResult (α : Type) where
  | ok (a : α) : PyResult α
  | rsfExc (e : RsfErr) : PyResult α
  | pyExc (e : PyExc) : PyResult α
deriving DecidableEq, Repr

/-- Source: `find_dateblock`: run `_droptake` with the two pattern
predicates, fail with `DateblockNotFound` on an empty result, otherwise
strip newlines from each collected line. -/
def find_dateblock (stream : List (List Char)) : Except RsfErr (List (List Char)) :=
  let dateblock := droptake isnot_start_pattern_match is_date_pattern_match stream
  if dateblock.length = 0 then
    Except.error RsfErr.dateblockNotFound
  else
    Except.ok (dateblock.map strip_trailing_newline)

/-- Numeric value of an ASCII digit character. -/
def digitVal (c : Char) : Nat := c.toNat - 48

/-- Gregorian leap year test (as in `calendar.isleap` / `datetime`). -/
def isLeap (y : Nat) : Bool :=
  y % 4 == 0 && (y % 100 != 0 || y % 400 == 0)

/-- Number of days in a month of a given year. -/
def daysInMonth (y m : Nat) : Nat :=
  if m == 2 then (if isLeap y then 29 else 28)
  else if m == 4 || m == 6 || m == 9 || m == 11 then 30
  else 31

/-- Days in year `y` before the first day of month `m` (1-based). -/
def daysBeforeMonth (y m : Nat) : Nat :=
  let base :=
    if m == 1 then 0 else if m == 2 then 31 else if m == 3 then 59
    else if m == 4 then 90 else if m == 5 then 120 else if m == 6 then 151
    else if m == 7 then 181 else if m == 8 then 212 else if m == 9 then 243
    else if m == 10 then 273 else if m == 11 then 304 else 334
  if 2 < m && isLeap y then base + 1 else base

/-- Proleptic Gregorian ordinal of a calendar date (Python
`date(y, m, d).toordinal()`, with 0001-01-01 = 1). -/
def toOrdinal (y m d : Nat) : Int :=
  Int.ofNat (365 * (y - 1) + (y - 1) / 4 - (y - 1) / 100 + (y - 1) / 400
    + daysBeforeMonth y m + d)

/-- Model of `datetime.date.fromisoformat` on the ten-character tokens
captured by the date pattern: requires the `YYYY-MM-DD` shape and a valid
calendar date (`1 <= year`, `1 <= month <= 12`, `1 <= day <= daysInMonth`;
`year <= 9999` holds automatically for a four-digit year). Returns the
ordinal of the date, or `none` where Python raises `ValueError`. -/
def fromisoformat (tok : List Char) : Option Int :=
  match tok with
  | [y1, y2, y3, y4, s1, m1, m2, s2, d1, d2] =>
    if (digitChar y1 && digitChar y2 && digitChar y3 && digitChar y4 &&
        s1 == '-' && digitChar m1 && digitChar m2 &&
        s2 == '-' && digitChar d1 && digitChar d2) then
      let y := 1000 * digitVal y1 + 100 * digitVal y2 + 10 * digitVal y3 + digitVal y4
      let m := 10 * digitVal m1 + digitVal m2
      let d := 10 * digitVal d1 + digitVal d2
      if 1 ≤ y && 1 ≤ m && m ≤ 12 && 1 ≤ d && d ≤ daysInMonth y m then
        some (toOrdinal y m d)
      else none
    else none
  | _ => none

/-- Source: `DueDate.from_datestr`. Mirrors the code path for path:
`m = _DATE_PATTERN.match(datestr)` followed by `m.group(...)` raises
`AttributeError` when the match is `None`; `completed` is the truthiness of
the `completed` capture; an empty `date` capture raises
`StringParsingError(m.group())` (this branch is unreachable because the date
group is mandatory and ten characters long, so the payload below stands in
for the matched text); `datetime.date.fromisoformat` raises `ValueError` on
an invalid calendar date, which the function does not catch. -/
def DueDate.from_datestr (datestr : List Char) : PyResult DueDate :=
  match dateMatch datestr with
  | none => PyResult.pyExc PyExc.attributeError
  | some (completed, tok) =>
    if tok.isEmpty then
      PyResult.rsfExc (RsfErr.stringParsingError datestr)
    else
      match fromisoformat tok with
      | some n => PyResult.ok { date := n, completed := completed }
      | none => PyResult.pyExc PyExc.valueError

/-- Source: `_duedateblock_from_strdateblock`, a list comprehension mapping
`DueDate.from_datestr` over the dateblock; the first raised exception aborts
the whole comprehension. -/
def duedateblock_from_strdateblock : List (List Char) → PyResult (List DueDate)
  | [] => PyResult.ok []
  | line :: rest =>
    match DueDate.from_datestr line with
    | PyResult.ok d =>
      match duedateblock_from_strdateblock rest with
      | PyResult.ok ds => PyResult.ok (d :: ds)
      | PyResult.rsfExc e => PyResult.rsfExc e
      | PyResult.pyExc e => PyResult.pyExc e
    | PyResult.rsfExc e => PyResult.rsfExc e
    | PyResult.pyExc e => PyResult.pyExc e

/-- Source: dataclass `DateRange` (a pair of dates, as ordinals). -/
structure DateRange where
  earliest : Int
  latest : Int
deriving DecidableEq, Repr

/-- Source: `DateRange.__contains__`: `earliest <= date <= latest`. -/
def DateRange.contains (r : DateRange) (date : Int) : Bool :=
  decide (r.earliest ≤ date) && decide (date ≤ r.latest)

/-- Source: the `tuple` property of `DateRange`. -/
def DateRange.tuple (r : DateRange) : Int × Int :=
  (r.earliest, r.latest)

/-- Source: `_make_date_range`: `earliest = ref - timedelta(days=overdue)`,
`latest = ref + timedelta(days=advance)`. -/
def make_date_range (ref : Int) (overdue advance : Int) : DateRange :=
  { earliest := ref - overdue, latest := ref + advance }

/-- The comparison generated by `@dataclass(order=True)` on `DueDate` with
`completed` excluded from comparison: `a < b` iff `a.date < b.date`. -/
def DueDate.pyLt (a b : DueDate) : Bool :=
  decide (a.date < b.date)

/-- The equality generated by `@dataclass` on `DueDate` with `completed`
excluded from comparison: `a == b` iff `a.date == b.date`. -/
def DueDate.pyEq (a b : DueDate) : Bool :=
  decide (a.date = b.date)

/-- Order in which Python `sorted` arranges `DueDate` values: `a` may
precede `b` when `not (b < a)` under the generated `__lt__`, that is,
`a.date ≤ b.date`. -/
def dueLE (a b : DueDate) : Prop := a.date ≤ b.date

instance : DecidableRel dueLE := fun a b => inferInstanceAs (Decidable (a.date ≤ b.date))

instance : IsTotal DueDate dueLE := ⟨fun a b => Int.le_total a.date b.date⟩

instance : IsTrans DueDate dueLE := ⟨fun _ _ _ h1 h2 => le_trans h1 h2⟩

/-- Model of Python `sorted` on a list of `DueDate`: the stable sort by the
generated `__lt__` (which compares `date` only, `completed` being excluded).
A stable sort by a total preorder is extensionally unique, so insertion
sort computes exactly the list `sorted` returns. -/
def sortDueDates (l : List DueDate) : List DueDate :=
  l.insertionSort dueLE

/-- The scanning loop of `get_due_date`: skip completed entries, return the
date of the first entry whose date is in the range. -/
def dueLoop (daterange : DateRange) : List DueDate → Option Int
  | [] => none
  | d :: ds =>
    if d.completed then dueLoop daterange ds
    else if daterange.contains d.date then some d.date
    else dueLoop daterange ds

/-- Source: `get_due_date`: build the range, sort the dateblock, scan the
sorted copy in ascending order; on failure raise `NoDueDateFound` carrying
`daterange.tuple` and the ORIGINAL `dateblock` argument. -/
def get_due_date (dateblock : List DueDate) (reference overdue advance : Int) :
    Except RsfErr Int :=
  let daterange := make_date_range reference overdue advance
  let dates := sortDueDates dateblock
  match dueLoop daterange dates with
  | some d => Except.ok d
  | none => Except.error (RsfErr.noDueDateFound daterange.tuple dateblock)

/-- Model of Python `filename.split("/")`: split on every slash, keeping
empty components. The result is always non-empty. -/
def pySplitSlash : List Char → List (List Char)
  | [] => [[]]
  | c :: rest =>
    if c == '/' then [] :: pySplitSlash rest
    else
      match pySplitSlash rest with
      | [] => [[c]]
      | h :: t => (c :: h) :: t

/-- Source: `_excise_filestem`: if the filename contains a slash, take the
last component of `filename.split("/")`. -/
def excise_filestem (filename : List Char) : List Char :=
  if filename.contains '/' then (pySplitSlash filename).getLastD []
  else filename

/-- Calendar date (year, month, day) of a proleptic Gregorian ordinal;
inverse of `toOrdinal` on valid dates (the civil-from-days algorithm). -/
def fromOrdinal (n : Int) : Int × Int × Int :=
  let z := n + 305
  let era := Int.fdiv z 146097
  let doe := z - era * 146097
  let yoe := (doe - doe / 1460 + doe / 36524 - doe / 146096) / 365
  let y := yoe + era * 400
  let doy := doe - (365 * yoe + yoe / 4 - yoe / 100)
  let mp := (5 * doy + 2) / 153
  let d := doy - (153 * mp + 2) / 5 + 1
  let m := mp + (if mp < 10 then 3 else -9)
  (if m ≤ 2 then y + 1 else y, m, d)

/-- Two-digit zero-padded decimal rendering. -/
def pad2 (n : Nat) : List Char :=
  [Char.ofNat (48 + n / 10 % 10), Char.ofNat (48 + n % 10)]

/-- Four-digit zero-padded decimal rendering. -/
def pad4 (n : Nat) : List Char :=
  [Char.ofNat (48 + n / 1000 % 10), Char.ofNat (48 + n / 100 % 10),
   Char.ofNat (48 + n / 10 % 10), Char.ofNat (48 + n % 10)]

/-- Model of `date.isoformat()` on an ordinal: `YYYY-MM-DD`
with zero padding (years of due dates are four digits). -/
def isoformat (n : Int) : List Char :=
  let c := fromOrdinal n
  pad4 c.1.toNat ++ '-' :: pad2 c.2.1.toNat ++ '-' :: pad2 c.2.2.toNat

/-- Source: `get_due_str`: format
`DUE : <due_date.isoformat()> : <excised filename>`. -/
def get_due_str (due_date : Int) (filename : List Char) : List Char :=
  "DUE : ".toList ++ isoformat due_date ++ " : ".toList ++ excise_filestem filename

/-- Model of `itertools.compress`: keep the data elements whose selector is
true; stops when either list is exhausted. -/
def compress {α : Type} : List α → List Bool → List α
  | _, [] => []
  | [], _ => []
  | a :: as, b :: bs => if b then a :: compress as bs else compress as bs

/-- Source: `_limit_stream`: the stream unchanged when `limit <= 0`,
otherwise `itertools.compress(stream, itertools.repeat(True, limit))`. -/
def limit_stream {α : Type} (stream : List α) (limit : Int) : List α :=
  if limit ≤ 0 then stream
  else compress stream (List.replicate limit.toNat true)

/-- Dynamic value held by a `MaybeResult` at the stages of this pipeline:
a line stream, a raw dateblock, a parsed dateblock, a date, a string, or an
offloaded exception object. -/
inductive Value where
  | stream (lines : List (List Char)) : Value
  | strs (lines : List (List Char)) : Value
  | dues (block : List DueDate) : Value
  | date (d : Int) : Value
  | str (s : List Char) : Value
  | exc (e : RsfErr) : Value
deriving DecidableEq, Repr

/-- Source: dataclass `MaybeResult` with fields `value` and `success`. -/
structure MaybeResult where
  value : Value
  success : Bool
deriving DecidableEq, Repr

/-- Source: `MaybeResult.bind`: when `success` is false return `self`
unchanged without calling `func`; otherwise call `func(self.value)`,
wrapping a normal return as a success and a raised `RsfException` as a
failure carrying the exception object. A raised exception outside the
`RsfException` hierarchy is not caught and propagates out of `bind`. -/
def MaybeResult.bind (r : MaybeResult) (func : Value → PyResult Value) :
    Except PyExc MaybeResult :=
  if r.success = false then Except.ok r
  else
    match func r.value with
    | PyResult.ok v => Except.ok { value := v, success := true }
    | PyResult.rsfExc e => Except.ok { value := Value.exc e, success := false }
    | PyResult.pyExc e => Except.error e

/-- Chaining form of `bind` used by the expression
`MaybeResult(...).bind(f1).bind(f2)...`: an uncaught exception from an
earlier `bind` propagates past the later ones. -/
def bindE (r : Except PyExc MaybeResult) (func : Value → PyResult Value) :
    Except PyExc MaybeResult :=
  match r with
  | Except.error e => Except.error e
  | Except.ok m => m.bind func

/-- The `find_dateblock` pipeline stage lifted to dynamic values. -/
def stageFind : Value → PyResult Value
  | Value.stream lines =>
    match find_dateblock lines with
    | Except.ok db => PyResult.ok (Value.strs db)
    | Except.error e => PyResult.rsfExc e
  | _ => PyResult.pyExc PyExc.typeError

/-- The `_duedateblock_from_strdateblock` pipeline stage lifted to dynamic
values. -/
def stageParse : Value → PyResult Value
  | Value.strs lines =>
    match duedateblock_from_strdateblock lines with
    | PyResult.ok ds => PyResult.ok (Value.dues ds)
    | PyResult.rsfExc e => PyResult.rsfExc e
    | PyResult.pyExc e => PyResult.pyExc e
  | _ => PyResult.pyExc PyExc.typeError

/-- The `get_due_date` pipeline stage (the partial application
`get_due_date_`) lifted to dynamic values. -/
def stageGetDue (reference overdue advance : Int) : Value → PyResult Value
  | Value.dues ds =>
    match get_due_date ds reference overdue advance with
    | Except.ok d => PyResult.ok (Value.date d)
    | Except.error e => PyResult.rsfExc e
  | _ => PyResult.pyExc PyExc.typeError

/-- The `get_due_str` pipeline stage (the partial application
`get_due_str_`) lifted to dynamic values. -/
def stageGetStr (filename : List Char) : Value → PyResult Value
  | Value.date d => PyResult.ok (Value.str (get_due_str d filename))
  | _ => PyResult.pyExc PyExc.typeError

/-- Model of `type(value).__name__` on the dynamic values; for a failed
result the value is the offloaded exception object, whose class name is the
error kind name. -/
def valueTypeName : Value → List Char
  | Value.exc RsfErr.dateblockNotFound => "DateblockNotFound".toList
  | Value.exc (RsfErr.noDueDateFound _ _) => "NoDueDateFound".toList
  | Value.exc (RsfErr.stringParsingError _) => "StringParsingError".toList
  | Value.stream _ => "generator".toList
  | Value.strs _ => "list".toList
  | Value.dues _ => "list".toList
  | Value.date _ => "date".toList
  | Value.str _ => "str".toList

/-- Source: `get_duestr_from_file`. The opened file is modelled by its list
of lines `fileLines` (each line keeping its trailing newline, as Python file
iteration yields them). The function limits the stream, runs the four-stage
`MaybeResult` chain, and returns `result.value` on success; on failure it
returns the error line when `return_nodues` is true and the empty string
otherwise. An exception outside the `RsfException` hierarchy raised by a
stage propagates out (`Except.error`). -/
def get_duestr_from_file (filename : List Char) (fileLines : List (List Char))
    (reference overdue advance : Int) (return_nodues : Bool) (limit : Int) :
    Except PyExc Value :=
  let stream_ := limit_stream fileLines limit
  let result :=
    bindE (bindE (bindE (MaybeResult.bind { value := Value.stream stream_, success := true }
      stageFind) stageParse) (stageGetDue reference overdue advance)) (stageGetStr filename)
  match result with
  | Except.error e => Except.error e
  | Except.ok r =>
    if r.success = true then Except.ok r.value
    else if return_nodues = true then
      Except.ok (Value.str (valueTypeName r.value ++ " : ".toList ++ excise_filestem filename))
    else Except.ok (Value.str [])

/-- Direct (non-monadic) composition of the three data stages of the
pipeline, used to state what the `MaybeResult` chain computes: limit the
stream, extract the dateblock, parse it, select the due date. -/
def duePipeline (fileLines : List (List Char)) (limit reference overdue advance : Int) :
    PyResult Int :=
  match find_dateblock (limit_stream fileLines limit) with
  | Except.error e => PyResult.rsfExc e
  | Except.ok db =>
    match duedateblock_from_strdateblock db with
    | PyResult.ok ds =>
      match get_due_date ds reference overdue advance with
      | Except.ok d => PyResult.ok d
      | Except.error e => PyResult.rsfExc e
    | PyResult.rsfExc e => PyResult.rsfExc e
    | PyResult.pyExc e => PyResult.pyExc e

/-- Name of an error kind (the class name of the exception). -/
def rsfErrName : RsfErr → List Char
  | RsfErr.dateblockNotFound => "DateblockNotFound".toList
  | RsfErr.noDueDateFound _ _ => "NoDueDateFound".toList
  | RsfErr.stringParsingError _ => "StringParsingError".toList

/-- The last component of a path: the maximal suffix after the last slash
(spec wording: the substring after the last slash). -/
def specLastComponent : List Char → List Char
  | [] => []
  | c :: rest =>
    if c == '/' then specLastComponent rest
    else if rest.contains '/' then specLastComponent rest
    else c :: rest

/-- Executable form of the shape that claim C7 asserts for the start-marker
matcher: the case-insensitive literal `rsf:` followed only by whitespace
(an optional trailing newline being whitespace) and nothing else. -/
def c7ClaimShape (l : List Char) : Bool :=
  match l with
  | c1 :: c2 :: c3 :: c4 :: rest =>
    (c1 == 'r' || c1 == 'R') && (c2 == 's' || c2 == 'S') &&
    (c3 == 'f' || c3 == 'F') && c4 == ':' && rest.all wsChar
  | _ => false

/-- Stripping ONLY trailing newline characters, the operation the spec
ascribes to the extractor (leading characters untouched). -/
def stripTrailingOnly (s : List Char) : List Char :=
  (s.reverse.dropWhile (· == '\n')).reverse

/-- Structural decomposition of a line accepted by the date-entry matcher,
together with its two captures: a bullet at the very first character, a run
of whitespace, an optional single completion flag, a run of whitespace, the
ten-character date token, and then arbitrary remaining text. -/
def DateLineDecomp (l : List Char) (flag : Bool) (tok : List Char) : Prop :=
  ∃ b ws1 flagChars ws2 rest,
    l = b :: (ws1 ++ flagChars ++ ws2 ++ tok ++ rest) ∧
    (b = '-' ∨ b = '*') ∧
    (∀ c ∈ ws1, wsChar c = true) ∧
    ((flag = true ∧ (flagChars = ['x'] ∨ flagChars = ['X'])) ∨
      (flag = false ∧ flagChars = [])) ∧
    (∀ c ∈ ws2, wsChar c = true) ∧
    dateTokenShape tok = true

/-- Executable form of the shape which claim C4 asserts for the date-entry
matcher: optional LEADING whitespace, a bullet, optional whitespace, an
optional single flag, optional whitespace, the date token, then optional
trailing whitespace and NOTHING else. -/
def c4ClaimShape (l : List Char) : Bool :=
  match l.dropWhile wsChar with
  | c :: rest =>
    (c == '-' || c == '*') &&
    (match matchTok ((takeFlag (rest.dropWhile wsChar)).2.dropWhile wsChar) with
     | some (_, rest2) => rest2.all wsChar
     | none => false)
  | [] => false

theorem compress_replicate_true {α : Type} (l : List α) (k : Nat) :
    compress l (List.replicate k true) = l.take k := by
  induction l generalizing k with
  | nil => cases k <;> simp [compress]
  | cons a as ih => cases k <;> simp [compress, List.replicate, ih]

theorem find_dateblock_of_no_marker (lines : List (List Char))
    (h : ∀ s ∈ lines, startPatternMatch s = false) :
    find_dateblock lines = Except.error RsfErr.dateblockNotFound := by
  have hdrop : lines.dropWhile isnot_start_pattern_match = [] := by
    rw [List.dropWhile_eq_nil_iff]
    intro x hx
    simp [isnot_start_pattern_match, h x hx]
  simp [find_dateblock, droptake, hdrop]

/-- Claim C8: with a positive limit, the limited stream is exactly the first
N lines of the input (all of it when shorter), i.e. plain truncation; a
marker that only occurs beyond the limit is invisible to extraction; with
limit 0 the stream is returned unchanged. -/
theorem limit_stream_spec (l : List (List Char)) (n : Int) :
    (0 < n → limit_stream l n = l.take n.toNat) ∧
    limit_stream l 0 = l ∧
    (0 < n → (∀ s ∈ l.take n.toNat, startPatternMatch s = false) →
      find_dateblock (limit_stream l n) = Except.error RsfErr.dateblockNotFound) := by
  refine ⟨fun hn => ?_, by simp [limit_stream], fun hn hm => ?_⟩
  · have : ¬ n ≤ 0 := by omega
    simp [limit_stream, this, compress_replicate_true]
  · have : ¬ n ≤ 0 := by omega
    rw [show limit_stream l n = l.take n.toNat by
      simp [limit_stream, this, compress_replicate_true]]
    exact find_dateblock_of_no_marker _ hm

theorem limit_stream_spec_witness :
    (0 < (2 : Int)) ∧
      limit_stream ["a".toList, "b".toList, "c".toList] 2 = ["a".toList, "b".toList] :=
  ⟨by decide,
    ((limit_stream_spec ["a".toList, "b".toList, "c".toList] 2).1 (by decide)).trans (by decide)⟩

/-- Claim C5: a failed result passes through `bind` unchanged for every
function; a successful result applies the function, wrapping a normal
return as a success and a raised error kind as a failure carrying the
exception; hence a whole chain of binds after a failure returns the failure
unchanged. -/
theorem maybeResult_bind_spec :
    (∀ (r : MaybeResult) (f : Value → PyResult Value),
      r.success = false → r.bind f = Except.ok r) ∧
    (∀ (v : Value) (f : Value → PyResult Value) (w : Value),
      f v = PyResult.ok w →
      MaybeResult.bind { value := v, success := true } f =
        Except.ok { value := w, success := true }) ∧
    (∀ (v : Value) (f : Value → PyResult Value) (e : RsfErr),
      f v = PyResult.rsfExc e →
      MaybeResult.bind { value := v, success := true } f =
        Except.ok { value := Value.exc e, success := false }) ∧
    (∀ (fs : List (Value → PyResult Value)) (r : MaybeResult),
      r.success = false → fs.foldl bindE (Except.ok r) = Except.ok r) := by
  have h1 : ∀ (r : MaybeResult) (f : Value → PyResult Value),
      r.success = false → r.bind f = Except.ok r := by
    intro r f h
    simp [MaybeResult.bind, h]
  refine ⟨h1, ?_, ?_, ?_⟩
  · intro v f w h
    simp [MaybeResult.bind, h]
  · intro v f e h
    simp [MaybeResult.bind, h]
  · intro fs
    induction fs with
    | nil => intro r h; rfl
    | cons f fs ih =>
      intro r h
      have : bindE (Except.ok r) f = Except.ok r := h1 r f h
      simpa [List.foldl, this] using ih r h

theorem maybeResult_bind_spec_witness :
    MaybeResult.bind
        { value := Value.exc RsfErr.dateblockNotFound, success := false } stageParse =
      Except.ok { value := Value.exc RsfErr.dateblockNotFound, success := false } :=
  maybeResult_bind_spec.1
    { value := Value.exc RsfErr.dateblockNotFound, success := false } stageParse rfl

/-- Claim C10: selection never alters its input (the embedding is pure and
the loop runs on a separate sorted copy); the checkable content is that a
failure carries the computed range together with the ORIGINAL entry list,
in its original order, not the sorted copy. -/
theorem get_due_date_frame (entries : List DueDate) (ref o a : Int) (err : RsfErr)
    (h : get_due_date entries ref o a = Except.error err) :
    err = RsfErr.noDueDateFound (ref - o, ref + a) entries := by
  simp only [get_due_date, make_date_range, DateRange.tuple] at h
  cases hl : dueLoop { earliest := ref - o, latest := ref + a } (sortDueDates entries) with
  | some d => rw [hl] at h; simp at h
  | none => rw [hl] at h; simp at h; exact h.symm

theorem get_due_date_frame_witness :
    RsfErr.noDueDateFound (7, 10) [{ date := 5, completed := true }] =
      RsfErr.noDueDateFound ((10 : Int) - 3, (10 : Int) + 0)
        [{ date := 5, completed := true }] :=
  get_due_date_frame [{ date := 5, completed := true }] 10 3 0 _ (by rfl)

/-- Claim C3 is refuted by the code: a dateblock line whose date token is
not a valid calendar date makes `from_datestr` raise `ValueError` (from
`datetime.date.fromisoformat`), and a line that does not match the pattern
makes it raise `AttributeError` (calling `.group` on `None`); neither is a
`StringParsingError`, and both escape the defined error taxonomy. -/
theorem from_datestr_escapes_taxonomy :
    DueDate.from_datestr ("- 2022-13-01".toList) = PyResult.pyExc PyExc.valueError ∧
    DueDate.from_datestr ("- 2022-01-32".toList) = PyResult.pyExc PyExc.valueError ∧
    DueDate.from_datestr ("no entry".toList) = PyResult.pyExc PyExc.attributeError := by
  exact ⟨by decide, by decide, by decide⟩

/-- Claim C7, amended: the start-marker matcher accepts a line exactly when
it BEGINS with the case-insensitive literal `rsf:`; arbitrary content may
follow, because `re.match` anchors only at the start of the line and the
pattern tail `\s*\n?` is nullable. It yields only a boolean and extracts
no data, and the extractor consumes it solely through the boolean drop/skip
predicate `_isnot_start_pattern_match`, its pointwise negation. -/
theorem start_pattern_spec :
    (∀ l : List Char, startPatternMatch l = true ↔
      ∃ c1 c2 c3 rest, l = c1 :: c2 :: c3 :: ':' :: rest ∧
        (c1 = 'r' ∨ c1 = 'R') ∧ (c2 = 's' ∨ c2 = 'S') ∧ (c3 = 'f' ∨ c3 = 'F')) ∧
    (∀ l : List Char, isnot_start_pattern_match l = !(startPatternMatch l)) := by
  refine ⟨?_, fun l => rfl⟩
  intro l
  rcases l with _ | ⟨c1, _ | ⟨c2, _ | ⟨c3, _ | ⟨c4, rest⟩⟩⟩⟩
  · simp [startPatternMatch]
  · simp [startPatternMatch]
  · simp [startPatternMatch]
  · simp [startPatternMatch]
  · simp only [startPatternMatch, Bool.and_eq_true, Bool.or_eq_true, beq_iff_eq]
    constructor
    · rintro ⟨⟨⟨h1, h2⟩, h3⟩, h4⟩
      exact ⟨c1, c2, c3, rest, by rw [h4], h1, h2, h3⟩
    · rintro ⟨d1, d2, d3, r, heq, h1, h2, h3⟩
      cases heq
      exact ⟨⟨⟨h1, h2⟩, h3⟩, rfl⟩

theorem start_pattern_spec_witness :
    startPatternMatch ("RSF:".toList) = true :=
  (start_pattern_spec.1 ("RSF:".toList)).mpr
    ⟨'R', 'S', 'F', [], rfl, Or.inr rfl, Or.inr rfl, Or.inr rfl⟩

/-- Counterexample to claim C7 as stated: the code accepts a line with
arbitrary text after the marker, which the claimed shape (nothing but
whitespace after `rsf:`) rejects. -/
theorem start_pattern_claim_counterexample :
    startPatternMatch ("rsf: hello".toList) = true ∧
      c7ClaimShape ("rsf: hello".toList) = false := by
  exact ⟨by decide, by decide⟩

theorem sortDueDates_sorted (l : List DueDate) :
    List.Pairwise dueLE (sortDueDates l) :=
  List.sorted_insertionSort dueLE l

theorem sortDueDates_perm (l : List DueDate) :
    (sortDueDates l).Perm l :=
  List.perm_insertionSort dueLE l

theorem filter_orderedInsert_date (k : Int) (a : DueDate) (l : List DueDate) :
    (List.orderedInsert dueLE a l).filter (fun d => decide (d.date = k)) =
      if a.date = k then a :: l.filter (fun d => decide (d.date = k))
      else l.filter (fun d => decide (d.date = k)) := by
  induction l with
  | nil =>
    by_cases hak : a.date = k <;> simp [List.orderedInsert, hak]
  | cons b t ih =>
    by_cases hab : dueLE a b
    · by_cases hak : a.date = k <;> simp [List.orderedInsert, hab, hak]
    · have hba : b.date < a.date := by
        simp only [dueLE] at hab; omega
      by_cases hak : a.date = k
      · have hbk : ¬ b.date = k := by omega
        simp [List.orderedInsert, hab, hak, hbk, ih]
      · by_cases hbk : b.date = k <;>
          simp [List.orderedInsert, hab, hak, hbk, ih]

theorem sortDueDates_filter (l : List DueDate) (k : Int) :
    (sortDueDates l).filter (fun d => decide (d.date = k)) =
      l.filter (fun d => decide (d.date = k)) := by
  induction l with
  | nil => rfl
  | cons a t ih =>
    show (List.orderedInsert dueLE a (List.insertionSort dueLE t)).filter _ = _
    rw [filter_orderedInsert_date]
    by_cases hak : a.date = k
    · simpa [hak] using congrArg (List.cons a) ih
    · simpa [hak] using ih

/-- Claim C6: the generated comparison orders `DueDate` values by `date`
alone (`completed` never participates), equality likewise; sorting is by
date (the sorted output is pairwise ordered by date and a permutation of
the input) and stable (for every date value, the entries carrying it appear
in the output exactly in their original order). -/
theorem dueDate_order_spec :
    (∀ a b : DueDate, DueDate.pyLt a b = true ↔ a.date < b.date) ∧
    (∀ a b : DueDate, DueDate.pyEq a b = true ↔ a.date = b.date) ∧
    (∀ l : List DueDate, List.Pairwise dueLE (sortDueDates l)) ∧
    (∀ l : List DueDate, (sortDueDates l).Perm l) ∧
    (∀ (l : List DueDate) (k : Int),
      (sortDueDates l).filter (fun d => decide (d.date = k)) =
        l.filter (fun d => decide (d.date = k))) := by
  refine ⟨?_, ?_, sortDueDates_sorted, sortDueDates_perm, sortDueDates_filter⟩
  · intro a b; simp [DueDate.pyLt]
  · intro a b; simp [DueDate.pyEq]

theorem dateRange_contains_iff (r : DateRange) (x : Int) :
    r.contains x = true ↔ (r.earliest ≤ x ∧ x ≤ r.latest) := by
  simp [DateRange.contains]

theorem dueLoop_some_mem (r : DateRange) (l : List DueDate) (v : Int)
    (h : dueLoop r l = some v) :
    ∃ d ∈ l, d.completed = false ∧ r.contains d.date = true ∧ d.date = v := by
  induction l with
  | nil => simp [dueLoop] at h
  | cons a t ih =>
    by_cases hc : a.completed
    · rw [dueLoop, if_pos hc] at h
      obtain ⟨d, hd, h1, h2, h3⟩ := ih h
      exact ⟨d, List.mem_cons_of_mem a hd, h1, h2, h3⟩
    · by_cases hr : r.contains a.date
      · rw [dueLoop, if_neg hc, if_pos hr] at h
        refine ⟨a, List.mem_cons_self a t, by simpa using hc, hr, by simpa using h⟩
      · rw [dueLoop, if_neg hc, if_neg hr] at h
        obtain ⟨d, hd, h1, h2, h3⟩ := ih h
        exact ⟨d, List.mem_cons_of_mem a hd, h1, h2, h3⟩

theorem dueLoop_min (r : DateRange) (l : List DueDate)
    (hs : List.Pairwise dueLE l) (v : Int) (h : dueLoop r l = some v) :
    ∀ d ∈ l, d.completed = false → r.contains d.date = true → v ≤ d.date := by
  induction l with
  | nil => simp
  | cons a t ih =>
    have ha : ∀ x ∈ t, dueLE a x := fun x hx => List.rel_of_pairwise_cons hs hx
    have hst : List.Pairwise dueLE t := hs.of_cons
    intro d hd hdc hdr
    by_cases hc : a.completed
    · rw [dueLoop, if_pos hc] at h
      rcases List.mem_cons.mp hd with rfl | hdt
      · rw [hdc] at hc; cases hc
      · exact ih hst h d hdt hdc hdr
    · by_cases hr : r.contains a.date
      · rw [dueLoop, if_neg hc, if_pos hr] at h
        have hv : v = a.date := by simpa using h.symm
        rcases List.mem_cons.mp hd with rfl | hdt
        · omega
        · have := ha d hdt
          simp only [dueLE] at this
          omega
      · rw [dueLoop, if_neg hc, if_neg hr] at h
        rcases List.mem_cons.mp hd with rfl | hdt
        · rw [hdr] at hr; cases hr rfl
        · exact ih hst h d hdt hdc hdr

theorem dueLoop_none_iff (r : DateRange) (l : List DueDate) :
    dueLoop r l = none ↔ ∀ d ∈ l, d.completed = false → r.contains d.date = false := by
  induction l with
  | nil => simp [dueLoop]
  | cons a t ih =>
    by_cases hc : a.completed
    · rw [dueLoop, if_pos hc]
      rw [ih]
      constructor
      · intro hall d hd hdc
        rcases List.mem_cons.mp hd with rfl | hdt
        · rw [hdc] at hc; cases hc
        · exact hall d hdt hdc
      · intro hall d hd hdc
        exact hall d (List.mem_cons_of_mem a hd) hdc
    · by_cases hr : r.contains a.date
      · rw [dueLoop, if_neg hc, if_pos hr]
        constructor
        · intro h; cases h
        · intro hall
          have := hall a (List.mem_cons_self a t) (by simpa using hc)
          rw [hr] at this; cases this
      · rw [dueLoop, if_neg hc, if_neg hr]
        rw [ih]
        constructor
        · intro hall d hd hdc
          rcases List.mem_cons.mp hd with rfl | hdt
          · exact Bool.not_eq_true _ ▸ (by simpa using hr)
          · exact hall d hdt hdc
        · intro hall d hd hdc
          exact hall d (List.mem_cons_of_mem a hd) hdc

/-- Claim C1: the selector computes the closed range from `reference` minus
`overdue` days to `reference` plus `advance` days (no sign constraint on
either integer), and returns the date of an entry exactly when that entry
is non-completed, its date lies in the range inclusively, and no other
non-completed entry in the range has a smaller date — the earliest
qualifying date; when no non-completed entry falls in the range it fails
with `NoDueDateFound` carrying the computed range and the full entry list. -/
theorem get_due_date_spec (entries : List DueDate) (ref o a : Int) :
    (∀ v : Int, get_due_date entries ref o a = Except.ok v ↔
      ((∃ d ∈ entries, d.completed = false ∧ ref - o ≤ d.date ∧ d.date ≤ ref + a ∧ d.date = v) ∧
       (∀ d ∈ entries, d.completed = false → ref - o ≤ d.date → d.date ≤ ref + a →
         v ≤ d.date))) ∧
    (get_due_date entries ref o a =
        Except.error (RsfErr.noDueDateFound (ref - o, ref + a) entries) ↔
      (∀ d ∈ entries, d.completed = false →
        ¬(ref - o ≤ d.date ∧ d.date ≤ ref + a))) := by
  have hperm := sortDueDates_perm entries
  have hsort := sortDueDates_sorted entries
  have hco : ∀ d : DueDate,
      (make_date_range ref o a).contains d.date = true ↔
        (ref - o ≤ d.date ∧ d.date ≤ ref + a) := by
    intro d
    rw [dateRange_contains_iff]
    exact Iff.rfl
  constructor
  · intro v
    constructor
    · intro h
      have hl : dueLoop (make_date_range ref o a) (sortDueDates entries) = some v := by
        simp only [get_due_date] at h
        cases hl : dueLoop (make_date_range ref o a) (sortDueDates entries) with
        | some w => rw [hl] at h; simp at h; rw [h]
        | none => rw [hl] at h; simp at h
      obtain ⟨d, hmem, hcomp, hcont, hdate⟩ := dueLoop_some_mem _ _ _ hl
      have hin : d ∈ entries := hperm.mem_iff.mp hmem
      obtain ⟨h1, h2⟩ := (hco d).mp hcont
      refine ⟨⟨d, hin, hcomp, h1, h2, hdate⟩, ?_⟩
      intro e he hec he1 he2
      exact dueLoop_min _ _ hsort _ hl e (hperm.mem_iff.mpr he) hec ((hco e).mpr ⟨he1, he2⟩)
    · rintro ⟨⟨d, hd, hcomp, h1, h2, hdv⟩, hmin⟩
      cases hl : dueLoop (make_date_range ref o a) (sortDueDates entries) with
      | none =>
        exfalso
        have hall := (dueLoop_none_iff _ _).mp hl d (hperm.mem_iff.mpr hd) hcomp
        rw [(hco d).mpr ⟨h1, h2⟩] at hall
        cases hall
      | some w =>
        obtain ⟨e, hmem, hec, hecont, hedate⟩ := dueLoop_some_mem _ _ _ hl
        obtain ⟨he1, he2⟩ := (hco e).mp hecont
        have hvw : v ≤ w := hedate ▸ hmin e (hperm.mem_iff.mp hmem) hec he1 he2
        have hwv : w ≤ v :=
          hdv ▸ dueLoop_min _ _ hsort _ hl d (hperm.mem_iff.mpr hd) hcomp
            ((hco d).mpr ⟨h1, h2⟩)
        have : w = v := le_antisymm hwv hvw
        simp only [get_due_date]
        rw [hl, this]
  · constructor
    · intro h
      have hl : dueLoop (make_date_range ref o a) (sortDueDates entries) = none := by
        simp only [get_due_date] at h
        cases hl : dueLoop (make_date_range ref o a) (sortDueDates entries) with
        | some w => rw [hl] at h; simp at h
        | none => rfl
      intro d hd hdc
      have := (dueLoop_none_iff _ _).mp hl d (hperm.mem_iff.mpr hd) hdc
      intro hc
      rw [(hco d).mpr hc] at this
      cases this
    · intro hall
      have hl : dueLoop (make_date_range ref o a) (sortDueDates entries) = none := by
        rw [dueLoop_none_iff]
        intro d hd hdc
        have := hall d (hperm.mem_iff.mp hd) hdc
        rcases hcd : (make_date_range ref o a).contains d.date with _ | _
        · rfl
        · exact absurd ((hco d).mp hcd) this
      simp only [get_due_date]
      rw [hl]
      simp [make_date_range, DateRange.tuple]

theorem get_due_date_spec_witness :
    get_due_date
        [{ date := 738229, completed := false }, { date := 738224, completed := false }]
        738229 3 0 = Except.ok 738229 :=
  ((get_due_date_spec
      [{ date := 738229, completed := false }, { date := 738224, completed := false }]
      738229 3 0).1 738229).mpr
    ⟨⟨{ date := 738229, completed := false }, by decide, rfl, by decide, by decide, rfl⟩,
      by decide⟩

theorem dropWhile_head_false {α : Type} {p : α → Bool} (l : List α) (x : α) (r : List α)
    (h : l.dropWhile p = x :: r) : p x = false := by
  induction l with
  | nil => cases h
  | cons a t ih =>
    rw [List.dropWhile_cons] at h
    by_cases hp : p a = true
    · exact ih (by rwa [if_pos hp] at h)
    · rw [if_neg hp] at h
      cases h
      simpa using hp

theorem date_line_head (l : List Char) (h : is_date_pattern_match l = true) :
    ∃ c rest, l = c :: rest ∧ (c == '-' || c == '*') = true := by
  cases l with
  | nil => simp [is_date_pattern_match, dateMatch] at h
  | cons c rest =>
    by_cases hb : (c == '-' || c == '*') = true
    · exact ⟨c, rest, rfl, hb⟩
    · simp only [is_date_pattern_match, dateMatch, if_neg hb] at h
      cases h

theorem strip_of_date_line (l : List Char) (h : is_date_pattern_match l = true) :
    strip_trailing_newline l = stripTrailingOnly l := by
  obtain ⟨c, rest, rfl, hb⟩ := date_line_head l h
  have hc : (c == '\n') = false := by
    rcases Bool.or_eq_true _ _ |>.mp hb with hb | hb
    · rw [beq_iff_eq] at hb; subst hb; decide
    · rw [beq_iff_eq] at hb; subst hb; decide
  rw [strip_trailing_newline, stripTrailingOnly, List.dropWhile_cons, hc]
  simp

theorem droptake_marker (pre rest : List (List Char)) (m : List Char)
    (hpre : ∀ l ∈ pre, startPatternMatch l = false)
    (hm : startPatternMatch m = true) :
    droptake isnot_start_pattern_match is_date_pattern_match (pre ++ m :: rest) =
      rest.takeWhile is_date_pattern_match := by
  unfold droptake
  have hpre2 : pre.dropWhile isnot_start_pattern_match = [] :=
    List.dropWhile_eq_nil_iff.mpr
      (fun x hx => by simp [isnot_start_pattern_match, hpre x hx])
  have h1 : (pre ++ m :: rest).dropWhile isnot_start_pattern_match = m :: rest := by
    rw [List.dropWhile_append, hpre2]
    simp [List.dropWhile_cons, isnot_start_pattern_match, hm]
  rw [h1]
  rfl

/-- Claim C2: the extractor drops everything up to and including the first
start-marker line and returns the maximal run of immediately following
date-entry lines with only trailing newlines stripped (leading characters
of a date-entry line are never newlines, so the two-sided strip of the code
acts only on the tail); it fails with `DateblockNotFound` when that run is
empty, and it fails likewise when no line is a marker. Entry-shaped lines
after the first non-matching line are outside the `takeWhile` run and are
never collected. -/
theorem find_dateblock_spec :
    (∀ (pre rest : List (List Char)) (m : List Char),
      (∀ l ∈ pre, startPatternMatch l = false) → startPatternMatch m = true →
      find_dateblock (pre ++ m :: rest) =
        (if rest.takeWhile is_date_pattern_match = [] then
          Except.error RsfErr.dateblockNotFound
        else
          Except.ok ((rest.takeWhile is_date_pattern_match).map stripTrailingOnly))) ∧
    (∀ lines : List (List Char),
      (∀ l ∈ lines, startPatternMatch l = false) →
      find_dateblock lines = Except.error RsfErr.dateblockNotFound) := by
  refine ⟨?_, find_dateblock_of_no_marker⟩
  intro pre rest m hpre hm
  simp only [find_dateblock, droptake_marker pre rest m hpre hm]
  by_cases hrun : rest.takeWhile is_date_pattern_match = []
  · simp [hrun]
  · have hlen : ¬ (rest.takeWhile is_date_pattern_match).length = 0 := by
      simpa [List.length_eq_zero] using hrun
    rw [if_neg hlen, if_neg hrun]
    congr 1
    exact List.map_congr_left
      (fun x hx => strip_of_date_line x (List.mem_takeWhile_imp hx))

theorem find_dateblock_spec_witness :
    find_dateblock
        ["intro\n".toList, "rsf:\n".toList, "- x 2022-03-10\n".toList,
         "- 2022-03-15\n".toList, "\n".toList, "- 2022-03-20\n".toList] =
      Except.ok ["- x 2022-03-10".toList, "- 2022-03-15".toList] :=
  (find_dateblock_spec.1 ["intro\n".toList]
      ["- x 2022-03-10\n".toList, "- 2022-03-15\n".toList, "\n".toList,
       "- 2022-03-20\n".toList] "rsf:\n".toList
      (by decide) (by decide)).trans (by rfl)

theorem digit_char_props (c : Char) (h : digitChar c = true) :
    wsChar c = false ∧ (c == 'x' || c == 'X') = false := by
  simp only [digitChar, Bool.or_eq_true, beq_iff_eq] at h
  rcases h with ((((((((h | h) | h) | h) | h) | h) | h) | h) | h) | h <;>
    subst h <;> exact ⟨by decide, by decide⟩

theorem dateTokenShape_length (t : List Char) (h : dateTokenShape t = true) :
    t.length = 10 := by
  rcases t with _ | ⟨a, _ | ⟨b, _ | ⟨c, _ | ⟨d, _ | ⟨e, _ | ⟨f, _ | ⟨g, _ | ⟨h8, _ |
    ⟨i, _ | ⟨j, _ | ⟨k, r⟩⟩⟩⟩⟩⟩⟩⟩⟩⟩⟩ <;>
    first
    | rfl
    | simp [dateTokenShape] at h

theorem dateTokenShape_head (t : List Char) (h : dateTokenShape t = true) :
    ∃ d ds, t = d :: ds ∧ digitChar d = true := by
  rcases t with _ | ⟨a, _ | ⟨b, _ | ⟨c, _ | ⟨d, _ | ⟨e, _ | ⟨f, _ | ⟨g, _ | ⟨h8, _ |
    ⟨i, _ | ⟨j, _ | ⟨k, r⟩⟩⟩⟩⟩⟩⟩⟩⟩⟩⟩ <;>
    first
    | (simp only [dateTokenShape, Bool.and_eq_true] at h
       exact ⟨a, _, rfl, h.1.1.1.1.1.1.1.1.1⟩)
    | simp [dateTokenShape] at h

theorem matchTok_self (tok rest : List Char) (h : dateTokenShape tok = true) :
    matchTok (tok ++ rest) = some (tok, rest) := by
  have hlen := dateTokenShape_length tok h
  simp only [matchTok]
  rw [← hlen, List.take_left, List.drop_left, if_pos h]

theorem matchTok_success (l tok rest2 : List Char) (h : matchTok l = some (tok, rest2)) :
    l = tok ++ rest2 ∧ dateTokenShape tok = true := by
  simp only [matchTok] at h
  by_cases hs : dateTokenShape (l.take 10) = true
  · rw [if_pos hs] at h
    have h1 : l.take 10 = tok := by
      have := congrArg (fun o => Option.map Prod.fst o) h
      simpa using this
    have h2 : l.drop 10 = rest2 := by
      have := congrArg (fun o => Option.map Prod.snd o) h
      simpa using this
    refine ⟨?_, h1 ▸ hs⟩
    rw [← h1, ← h2, List.take_append_drop]
  · rw [if_neg hs] at h
    cases h

theorem dropWhile_ws_append (ws l : List Char) (h : ∀ c ∈ ws, wsChar c = true) :
    (ws ++ l).dropWhile wsChar = l.dropWhile wsChar := by
  rw [List.dropWhile_append, List.dropWhile_eq_nil_iff.mpr h]
  simp

theorem takeFlag_flag (x : Char) (r : List Char) (hx : (x == 'x' || x == 'X') = true) :
    takeFlag (x :: r) = (true, r) := by
  simp [takeFlag, hx]

theorem takeFlag_noflag (x : Char) (r : List Char) (hx : (x == 'x' || x == 'X') = false) :
    takeFlag (x :: r) = (false, x :: r) := by
  simp [takeFlag, hx]

theorem dateMatch_of_decomp (l : List Char) (flag : Bool) (tok : List Char)
    (hd : DateLineDecomp l flag tok) : dateMatch l = some (flag, tok) := by
  obtain ⟨b, ws1, fc, ws2, rest, rfl, hb, hws1, hfc, hws2, htok⟩ := hd
  have hbul : (b == '-' || b == '*') = true := by
    rcases hb with rfl | rfl <;> decide
  obtain ⟨d0, ds, htokeq, hd0⟩ := dateTokenShape_head tok htok
  obtain ⟨hd0ws, hd0fl⟩ := digit_char_props d0 hd0
  have hdropTok : ∀ tail : List Char, (tok ++ tail).dropWhile wsChar = tok ++ tail := by
    intro tail
    rw [htokeq, List.cons_append, List.dropWhile_cons, hd0ws]
    simp
  simp only [dateMatch, hbul, if_true]
  rcases hfc with ⟨hfl, hfc2⟩ | ⟨hfl, hfc2⟩ <;> subst hfl
  · rcases hfc2 with rfl | rfl
    · have h1 : (ws1 ++ ['x'] ++ ws2 ++ tok ++ rest).dropWhile wsChar =
          'x' :: (ws2 ++ (tok ++ rest)) := by
        rw [show ws1 ++ ['x'] ++ ws2 ++ tok ++ rest =
            ws1 ++ ('x' :: (ws2 ++ (tok ++ rest))) by simp]
        rw [dropWhile_ws_append ws1 _ hws1, List.dropWhile_cons,
          show wsChar 'x' = false by decide]
        simp
      rw [h1, takeFlag_flag _ _ (by decide)]
      rw [show ((true, ws2 ++ (tok ++ rest)) : Bool × List Char).2 = ws2 ++ (tok ++ rest)
        from rfl]
      rw [dropWhile_ws_append ws2 _ hws2, hdropTok rest, matchTok_self tok rest htok]
    · have h1 : (ws1 ++ ['X'] ++ ws2 ++ tok ++ rest).dropWhile wsChar =
          'X' :: (ws2 ++ (tok ++ rest)) := by
        rw [show ws1 ++ ['X'] ++ ws2 ++ tok ++ rest =
            ws1 ++ ('X' :: (ws2 ++ (tok ++ rest))) by simp]
        rw [dropWhile_ws_append ws1 _ hws1, List.dropWhile_cons,
          show wsChar 'X' = false by decide]
        simp
      rw [h1, takeFlag_flag _ _ (by decide)]
      rw [show ((true, ws2 ++ (tok ++ rest)) : Bool × List Char).2 = ws2 ++ (tok ++ rest)
        from rfl]
      rw [dropWhile_ws_append ws2 _ hws2, hdropTok rest, matchTok_self tok rest htok]
  · subst hfc2
    have h1 : (ws1 ++ [] ++ ws2 ++ tok ++ rest).dropWhile wsChar = tok ++ rest := by
      rw [show ws1 ++ [] ++ ws2 ++ tok ++ rest = ws1 ++ (ws2 ++ (tok ++ rest)) by simp]
      rw [dropWhile_ws_append ws1 _ hws1, dropWhile_ws_append ws2 _ hws2, hdropTok rest]
    rw [h1, htokeq, List.cons_append, takeFlag_noflag _ _ hd0fl]
    rw [show ((false, d0 :: (ds ++ rest)) : Bool × List Char).2 = d0 :: (ds ++ rest)
      from rfl]
    rw [List.dropWhile_cons, hd0ws]
    simp only [Bool.false_eq_true, if_false]
    rw [← List.cons_append, ← htokeq, matchTok_self tok rest htok]

theorem decomp_of_dateMatch (l : List Char) (flag : Bool) (tok : List Char)
    (h : dateMatch l = some (flag, tok)) : DateLineDecomp l flag tok := by
  cases l with
  | nil => simp [dateMatch] at h
  | cons c r =>
    by_cases hb : (c == '-' || c == '*') = true
    · have hbp : c = '-' ∨ c = '*' := by
        rcases Bool.or_eq_true _ _ |>.mp hb with h1 | h1
        · exact Or.inl (beq_iff_eq.mp h1)
        · exact Or.inr (beq_iff_eq.mp h1)
      simp only [dateMatch, hb, if_true] at h
      rcases hsplit : r.dropWhile wsChar with _ | ⟨x, rr⟩
      · rw [hsplit] at h
        simp [takeFlag, matchTok, dateTokenShape] at h
      · rw [hsplit] at h
        have hr : r = r.takeWhile wsChar ++ (x :: rr) := by
          conv_lhs => rw [← List.takeWhile_append_dropWhile wsChar r]
          rw [hsplit]
        by_cases hx : (x == 'x' || x == 'X') = true
        · rw [takeFlag_flag x rr hx] at h
          rcases hmt : matchTok (rr.dropWhile wsChar) with _ | ⟨tok2, rest2⟩
          · rw [hmt] at h; simp at h
          · rw [hmt] at h
            simp only [Option.some.injEq, Prod.mk.injEq] at h
            obtain ⟨hfl, htk⟩ := h
            subst hfl
            subst htk
            obtain ⟨hle, hshape⟩ := matchTok_success _ _ _ hmt
            refine ⟨c, r.takeWhile wsChar, [x], rr.takeWhile wsChar, rest2, ?_, hbp,
              ?_, ?_, ?_, hshape⟩
            · have hrr : rr = rr.takeWhile wsChar ++ (tok2 ++ rest2) := by
                conv_lhs => rw [← List.takeWhile_append_dropWhile wsChar rr]
                rw [hle]
              conv_lhs => rw [hr]
              conv_lhs => rw [hrr]
              simp
            · exact fun y hy => List.mem_takeWhile_imp hy
            · refine Or.inl ⟨rfl, ?_⟩
              rcases Bool.or_eq_true _ _ |>.mp hx with h1 | h1
              · exact Or.inl (by rw [beq_iff_eq.mp h1])
              · exact Or.inr (by rw [beq_iff_eq.mp h1])
            · exact fun y hy => List.mem_takeWhile_imp hy
        · have hx2 : (x == 'x' || x == 'X') = false := by
            simpa using hx
          rw [takeFlag_noflag x rr hx2] at h
          have hxws : wsChar x = false := dropWhile_head_false r x rr hsplit
          have hid : (x :: rr).dropWhile wsChar = x :: rr := by
            rw [List.dropWhile_cons, hxws]
            simp
          rw [show ((false, x :: rr) : Bool × List Char).2 = x :: rr from rfl, hid] at h
          rcases hmt : matchTok (x :: rr) with _ | ⟨tok2, rest2⟩
          · rw [hmt] at h; simp at h
          · rw [hmt] at h
            simp only [Option.some.injEq, Prod.mk.injEq] at h
            obtain ⟨hfl, htk⟩ := h
            subst hfl
            subst htk
            obtain ⟨hle, hshape⟩ := matchTok_success _ _ _ hmt
            refine ⟨c, r.takeWhile wsChar, [], [], rest2, ?_, hbp,
              ?_, Or.inr ⟨rfl, rfl⟩, ?_, hshape⟩
            · conv_lhs => rw [hr]
              conv_lhs => rw [hle]
              simp
            · exact fun y hy => List.mem_takeWhile_imp hy
            · exact fun y hy => absurd hy (List.not_mem_nil y)
    · simp only [dateMatch] at h
      rw [if_neg hb] at h
      cases h

/-- Claim C4, amended: the date-entry matcher accepts exactly the lines
whose FIRST character is a bullet `-` or `*` (no leading whitespace is
permitted), followed by optional whitespace, an optional single completion
flag `x`/`X`, optional whitespace and a ten-character digit token of shape
`YYYY-MM-DD`, after which ARBITRARY text may follow (the match is not
anchored at the end); for every accepted line the two captures are the
presence of the completion flag and the exact ten-character date token. -/
theorem date_pattern_spec (l : List Char) :
    (is_date_pattern_match l = true ↔ ∃ flag tok, DateLineDecomp l flag tok) ∧
    (∀ flag tok, DateLineDecomp l flag tok → dateMatch l = some (flag, tok)) := by
  refine ⟨⟨?_, ?_⟩, dateMatch_of_decomp l⟩
  · intro h
    rw [is_date_pattern_match, Option.isSome_iff_exists] at h
    obtain ⟨⟨flag, tok⟩, hp⟩ := h
    exact ⟨flag, tok, decomp_of_dateMatch l flag tok hp⟩
  · rintro ⟨flag, tok, hdec⟩
    rw [is_date_pattern_match, dateMatch_of_decomp l flag tok hdec]
    rfl

theorem date_pattern_spec_witness :
    dateMatch ("- x 2022-03-10".toList) = some (true, "2022-03-10".toList) :=
  (date_pattern_spec ("- x 2022-03-10".toList)).2 true ("2022-03-10".toList)
    ⟨'-', [' '], ['x'], [' '], [], by decide, Or.inl rfl, by decide,
      Or.inl ⟨rfl, Or.inl rfl⟩, by decide, by decide⟩

/-- Counterexample to claim C4 as stated: a line with leading whitespace
has the claimed shape but is rejected by the code (the pattern is anchored
at position 0), and a line with non-whitespace text after the date token is
outside the claimed shape but is accepted by the code (the pattern has no
end anchor). -/
theorem date_pattern_claim_counterexample :
    (c4ClaimShape (" - 2022-01-01".toList) = true ∧
      is_date_pattern_match (" - 2022-01-01".toList) = false) ∧
    (c4ClaimShape ("- 2022-01-01 junk".toList) = false ∧
      is_date_pattern_match ("- 2022-01-01 junk".toList) = true) := by
  exact ⟨⟨by decide, by decide⟩, ⟨by decide, by decide⟩⟩

theorem valueTypeName_exc (e : RsfErr) :
    valueTypeName (Value.exc e) = rsfErrName e := by
  cases e <;> rfl

theorem pySplitSlash_ne_nil (s : List Char) : pySplitSlash s ≠ [] := by
  cases s with
  | nil => simp [pySplitSlash]
  | cons c t =>
    by_cases hc : (c == '/') = true
    · simp [pySplitSlash, hc]
    · simp only [pySplitSlash, hc, if_false, Bool.false_eq_true]
      rcases hsp : pySplitSlash t with _ | ⟨h1, r⟩ <;> simp [hsp]

theorem pySplitSlash_no_slash (s : List Char) (h : '/' ∉ s) :
    pySplitSlash s = [s] := by
  induction s with
  | nil => rfl
  | cons c t ih =>
    have hc : (c == '/') = false := by
      rw [beq_eq_false_iff_ne]
      intro hcc
      exact h (by rw [hcc]; exact List.mem_cons_self _ _)
    have ht : '/' ∉ t := fun hm => h (List.mem_cons_of_mem _ hm)
    simp [pySplitSlash, hc, ih ht]

theorem pySplitSlash_length_two (s : List Char) (h : '/' ∈ s) :
    2 ≤ (pySplitSlash s).length := by
  induction s with
  | nil => cases h
  | cons c t ih =>
    by_cases hc : (c == '/') = true
    · have h1 : 1 ≤ (pySplitSlash t).length :=
        List.length_pos.mpr (pySplitSlash_ne_nil t)
      simp only [pySplitSlash, hc, if_true, List.length_cons]
      omega
    · have hmem : '/' ∈ t := by
        rcases List.mem_cons.mp h with hceq | hmem
        · exact absurd (beq_iff_eq.mpr hceq.symm) hc
        · exact hmem
      rcases hsp : pySplitSlash t with _ | ⟨h1, r⟩
      · exact absurd hsp (pySplitSlash_ne_nil t)
      · have h2 := ih hmem
        rw [hsp] at h2
        simp only [pySplitSlash, hc, if_false, Bool.false_eq_true, hsp,
          List.length_cons] at h2 ⊢
        omega

theorem pySplitSlash_getLastD (s : List Char) :
    (pySplitSlash s).getLastD [] = specLastComponent s := by
  induction s with
  | nil => rfl
  | cons c t ih =>
    by_cases hc : (c == '/') = true
    · rw [show specLastComponent (c :: t) = specLastComponent t by
        simp [specLastComponent, hc]]
      simp only [pySplitSlash, hc, if_true, List.getLastD_cons]
      exact ih
    · rcases hsp : pySplitSlash t with _ | ⟨h1, r⟩
      · exact absurd hsp (pySplitSlash_ne_nil t)
      · by_cases hct : '/' ∈ t
        · have hlen := pySplitSlash_length_two t hct
          rw [hsp] at hlen
          rcases r with _ | ⟨a, r2⟩
          · simp at hlen
          · have hL : pySplitSlash (c :: t) = (c :: h1) :: a :: r2 := by
              simp [pySplitSlash, hc, hsp]
            rw [hL, List.getLastD_cons, List.getLastD_cons]
            rw [show specLastComponent (c :: t) = specLastComponent t by
              simp [specLastComponent, hc, hct]]
            rw [← ih, hsp, List.getLastD_cons, List.getLastD_cons]
        · have h2 : pySplitSlash t = [t] := pySplitSlash_no_slash t hct
          have hL : pySplitSlash (c :: t) = [c :: t] := by
            simp [pySplitSlash, hc, h2]
          rw [hL]
          simp [specLastComponent, hc, hct, List.getLastD]

theorem excise_filestem_spec (s : List Char) :
    excise_filestem s = if s.contains '/' = true then specLastComponent s else s := by
  by_cases h : '/' ∈ s
  · have hb : s.contains '/' = true := by simpa using h
    simp only [excise_filestem, h, hb, if_true]
    exact pySplitSlash_getLastD s
  · have hb : s.contains '/' = false := by simpa using h
    simp [excise_filestem, h, hb]

/-- Claim C9: whenever every data stage of the pipeline succeeds (which the
direct composition `duePipeline` expresses), the per-file function returns
the string `DUE : <ISO date> : <basename>`; whenever a stage fails with one
of the three error kinds, it returns `<ErrorKindName> : <basename>` when the
verbose flag is set and the empty string otherwise; and the basename is the
substring after the last slash of the filename (the filename unchanged when
it has no slash). -/
theorem get_duestr_from_file_spec (filename : List Char) (fileLines : List (List Char))
    (reference overdue advance : Int) (return_nodues : Bool) (limit : Int) :
    (∀ d : Int,
      duePipeline fileLines limit reference overdue advance = PyResult.ok d →
      get_duestr_from_file filename fileLines reference overdue advance return_nodues limit =
        Except.ok (Value.str
          ("DUE : ".toList ++ isoformat d ++ " : ".toList ++ excise_filestem filename))) ∧
    (∀ e : RsfErr,
      duePipeline fileLines limit reference overdue advance = PyResult.rsfExc e →
      get_duestr_from_file filename fileLines reference overdue advance return_nodues limit =
        Except.ok (Value.str
          (if return_nodues = true then
            rsfErrName e ++ " : ".toList ++ excise_filestem filename
          else []))) ∧
    (∀ s : List Char,
      excise_filestem s = if s.contains '/' = true then specLastComponent s else s) := by
  refine ⟨?_, ?_, excise_filestem_spec⟩
  · intro d hd
    unfold duePipeline at hd
    cases hf : find_dateblock (limit_stream fileLines limit) with
    | error e2 => simp only [hf] at hd; simp at hd
    | ok db =>
      simp only [hf] at hd
      cases hp : duedateblock_from_strdateblock db with
      | rsfExc e2 => simp only [hp] at hd; simp at hd
      | pyExc e2 => simp only [hp] at hd; simp at hd
      | ok ds =>
        simp only [hp] at hd
        cases hg : get_due_date ds reference overdue advance with
        | error e2 => simp only [hg] at hd; simp at hd
        | ok w =>
          simp only [hg] at hd
          simp only [PyResult.ok.injEq] at hd
          subst hd
          simp [get_duestr_from_file, MaybeResult.bind, bindE, stageFind, stageParse,
            stageGetDue, stageGetStr, hf, hp, hg, get_due_str]
  · intro e hd
    unfold duePipeline at hd
    cases hf : find_dateblock (limit_stream fileLines limit) with
    | error e2 =>
      simp only [hf] at hd
      simp only [PyResult.rsfExc.injEq] at hd
      subst hd
      cases return_nodues <;>
        simp [get_duestr_from_file, MaybeResult.bind, bindE, stageFind, stageParse,
          stageGetDue, stageGetStr, hf, valueTypeName_exc]
    | ok db =>
      simp only [hf] at hd
      cases hp : duedateblock_from_strdateblock db with
      | pyExc e2 => simp only [hp] at hd; simp at hd
      | rsfExc e2 =>
        simp only [hp] at hd
        simp only [PyResult.rsfExc.injEq] at hd
        subst hd
        cases return_nodues <;>
          simp [get_duestr_from_file, MaybeResult.bind, bindE, stageFind, stageParse,
            stageGetDue, stageGetStr, hf, hp, valueTypeName_exc]
      | ok ds =>
        simp only [hp] at hd
        cases hg : get_due_date ds reference overdue advance with
        | ok w => simp only [hg] at hd; simp at hd
        | error e2 =>
          simp only [hg] at hd
          simp only [PyResult.rsfExc.injEq] at hd
          subst hd
          cases return_nodues <;>
            simp [get_duestr_from_file, MaybeResult.bind, bindE, stageFind, stageParse,
              stageGetDue, stageGetStr, hf, hp, hg, valueTypeName_exc]

theorem get_duestr_from_file_spec_witness :
    get_duestr_from_file ("notes/a.md".toList)
        ["# intro\n".toList, "rsf:\n".toList, "- x 2022-03-10\n".toList,
         "- 2022-03-15\n".toList, "\n".toList]
        738229 3 0 false 0 =
      Except.ok (Value.str
        ("DUE : ".toList ++ isoformat 738229 ++ " : ".toList ++
          excise_filestem ("notes/a.md".toList))) :=
  (get_duestr_from_file_spec ("notes/a.md".toList)
      ["# intro\n".toList, "rsf:\n".toList, "- x 2022-03-10\n".toList,
       "- 2022-03-15\n".toList, "\n".toList]
      738229 3 0 false 0).1 738229 (by rfl)
